import Mathlib

/-! # serial_tool.c: a shallow embedding

Bytes, characters and buffer contents are natural numbers (a `char` or
`unsigned char` is a value below 256); a C string is the list of its
characters before the terminating NUL.  `size_t` is 64 bits wide and its
arithmetic wraps modulo `SIZE_MOD`; `int` and `unsigned int` are 32 bits.
Text is given by `str`, the list of character codes of an ASCII literal.
-/

namespace SerialTool

/-! ## Text and libc helpers -/

/-- Character codes of an ASCII literal. -/
def str (s : String) : List Nat := s.toList.map Char.toNat

/-- Modulus of `size_t` arithmetic. -/
def SIZE_MOD : Nat := 2 ^ 64

/-- Modulus of `unsigned int` arithmetic. -/
def UINT_MOD : Nat := 2 ^ 32

/-- Largest `int`. -/
def INT_MAX : Int := 2147483647

/-- The C string held in a buffer: the characters before the first NUL. -/
def c_str (buf : List Nat) : List Nat := buf.takeWhile (fun c => c != 0)

/-- The function `isspace` of the C locale: space, `\t`, `\n`, `\v`, `\f`, `\r`. -/
def isspace (c : Nat) : Bool := c == 32 || (9 ≤ c && c ≤ 13)

/-- Value of a hexadecimal digit character, either case. -/
def hexval (c : Nat) : Option Nat :=
  if 48 ≤ c ∧ c ≤ 57 then some (c - 48)
  else if 65 ≤ c ∧ c ≤ 70 then some (c - 55)
  else if 97 ≤ c ∧ c ≤ 102 then some (c - 87)
  else none

/-- The libc call `sscanf(s, "%2x", &byte) == 1`, as ISO C 7.21.6.2 describes it:
`some v` when the call returns 1 and stores `v`, `none` when it returns 0 or
EOF.  White space is skipped first and does not count towards the field width;
then at most two characters are read: an optional sign, an optional `0x`
prefix, hexadecimal digits.  The input item `0x` (a prefix with no digit, all
the width allows) is a matching failure in ISO C, while C libraries that read
it as the number 0 exist; `accept0x` selects the latter behaviour. -/
def sscanf_2x (accept0x : Bool) (s : List Nat) : Option Nat :=
  match s.dropWhile isspace with
  | [] => none
  | c0 :: rest =>
    if c0 = 43 ∨ c0 = 45 then
      match rest with
      | [] => none
      | c1 :: _ =>
        match hexval c1 with
        | some d => some (if c0 = 45 then (UINT_MOD - d) % UINT_MOD else d)
        | none => none
    else
      match hexval c0 with
      | none => none
      | some d0 =>
        match rest with
        | [] => some d0
        | c1 :: _ =>
          if c0 = 48 ∧ (c1 = 120 ∨ c1 = 88) then (if accept0x then some 0 else none)
          else
            match hexval c1 with
            | some d1 => some (16 * d0 + d1)
            | none => some d0

/-- The conversion `printf("%d", n)`. -/
def fmt_d (n : Int) : List Nat :=
  if n < 0 then 45 :: (Nat.toDigits 10 n.natAbs).map Char.toNat
  else (Nat.toDigits 10 n.natAbs).map Char.toNat

/-- The conversion `printf("%02X", v)` of an unsigned value: upper-case
hexadecimal, padded with a zero to at least two digits. -/
def fmt_02X (v : Nat) : List Nat :=
  let ds := (Nat.toDigits 16 v).map (fun c => c.toUpper.toNat)
  if ds.length < 2 then List.replicate (2 - ds.length) 48 ++ ds else ds

/-! ## The `:hex ` parse loop of `interactive_mode` -/

/-- Variables of the hex parse loop: the index `i`, the count `hex_len`, and
the stores made into `hex_data` so far, each as (index, byte), oldest first. -/
structure HexState where
  i : Nat
  hex_len : Nat
  stores : List (Nat × Nat)
deriving DecidableEq

/-- Loop condition `i < strlen(hex_str) && hex_len < sizeof(hex_data)`. -/
def hex_cond (hex_str : List Nat) (st : HexState) : Bool :=
  st.i < hex_str.length && st.hex_len < 512

/-- One pass through the loop body followed by the increment `i += 2`.  On a
space the body does `i--; continue;`, so the index goes down by one (wrapping
at 0) and then up by two. -/
def hex_body (accept0x : Bool) (hex_str : List Nat) (st : HexState) : HexState :=
  if hex_str.getD st.i 0 = 32 then
    { st with i := ((st.i + SIZE_MOD - 1) % SIZE_MOD + 2) % SIZE_MOD }
  else
    match sscanf_2x accept0x (hex_str.drop st.i) with
    | some byte =>
      { i := (st.i + 2) % SIZE_MOD,
        hex_len := st.hex_len + 1,
        stores := st.stores ++ [(st.hex_len, byte % 256)] }
    | none => { st with i := (st.i + 2) % SIZE_MOD }

/-- The loop, run for at most `fuel` iterations: the final variables and the
number of iterations executed, or `none` when `fuel` iterations do not reach
the exit. -/
def hex_loop (accept0x : Bool) (hex_str : List Nat) : Nat → HexState → Option (HexState × Nat)
  | 0, st => if hex_cond hex_str st then none else some (st, 0)
  | fuel + 1, st =>
    if hex_cond hex_str st then
      (hex_loop accept0x hex_str fuel (hex_body accept0x hex_str st)).map
        (fun r => (r.1, r.2 + 1))
    else some (st, 0)

/-- Contents of the array `hex_data` after the given stores, from the contents
`init` it had before the loop (it is not initialised). -/
def hex_data_after (init : Nat → Nat) (stores : List (Nat × Nat)) : Nat → Nat :=
  stores.foldl (fun mem w => Function.update mem w.1 w.2) init

/-- The first `hex_len` bytes of `hex_data`, which is what the caller passes to
`serial_write`. -/
def hex_payload (init : Nat → Nat) (st : HexState) : List Nat :=
  (List.range st.hex_len).map (hex_data_after init st.stores)

/-- The `:hex ` parser: the loop started at `i = 0`, `hex_len = 0` with
`strlen(hex_str)` iterations of fuel, and the bytes it leaves for
`serial_write`. -/
def hex_parse (accept0x : Bool) (init : Nat → Nat) (hex_str : List Nat) : Option (List Nat) :=
  (hex_loop accept0x hex_str hex_str.length ⟨0, 0, []⟩).map (fun r => hex_payload init r.1)

/-! ## `print_hex` and the display of received data -/

/-- The loop of `print_hex` from index `i` on: each byte as `"%02X "`, and a
newline when `(i + 1) % 16 == 0`. -/
def print_hex_from : Nat → List Nat → List Nat
  | _, [] => []
  | i, b :: rest =>
    fmt_02X b ++ [32] ++ (if (i + 1) % 16 = 0 then [10] else []) ++ print_hex_from (i + 1) rest

/-- What `print_hex(data, len)` writes to stdout, `len` being the length of `data`. -/
def print_hex (data : List Nat) : List Nat :=
  print_hex_from 0 data ++ (if data.length % 16 ≠ 0 then [10] else [])

/-- The flag `is_printable` after the check loop over the received bytes: cleared
at the first byte below 32 that is not `\n`, `\r` or `\t`. -/
def is_printable : List Nat → Bool
  | [] => true
  | b :: rest => if b < 32 ∧ b ≠ 10 ∧ b ≠ 13 ∧ b ≠ 9 then false else is_printable rest

/-- What the poll loop prints after the header when `bytes_read > 0`: the buffer
is NUL-terminated at `bytes_read`, then shown with `"'%s'\n"` when printable and
as a newline followed by `print_hex` otherwise. -/
def render_received (bytes_read : Int) (read_buffer : List Nat) : List Nat :=
  let n := bytes_read.toNat
  let buf := read_buffer.set n 0
  if is_printable (buf.take n) then [39] ++ c_str buf ++ [39, 10]
  else [10] ++ print_hex (buf.take n)

/-- Everything the poll loop prints for received data when `bytes_read > 0`. -/
def show_received (bytes_read : Int) (read_buffer : List Nat) : List Nat :=
  str "\nReceived (" ++ fmt_d bytes_read ++ str " bytes): " ++
    render_received bytes_read read_buffer ++ str "> "

/-! ## The transport -/

/-- Conversion of a wider integer to `int`. -/
def to_int (v : Int) : Int := (v + 2 ^ 31) % 2 ^ 32 - 2 ^ 31

/-- The rate constants of `termios.h` that the program names. -/
inductive speed_t
  | B9600 | B19200 | B38400 | B57600 | B115200 | B230400 | B460800 | B921600
deriving DecidableEq

/-- The two speed fields of `struct termios`. -/
structure termios where
  c_ispeed : speed_t
  c_ospeed : speed_t
deriving DecidableEq

namespace Posix

/-- The function `get_baud_rate`. -/
def get_baud_rate (baud : Int) : speed_t :=
  if baud = 9600 then speed_t.B9600
  else if baud = 19200 then speed_t.B19200
  else if baud = 38400 then speed_t.B38400
  else if baud = 57600 then speed_t.B57600
  else if baud = 115200 then speed_t.B115200
  else if baud = 230400 then speed_t.B230400
  else if baud = 460800 then speed_t.B460800
  else if baud = 921600 then speed_t.B921600
  else speed_t.B9600

/-- The speed part of `open_serial_port`: `speed = get_baud_rate(baud_rate)`,
then `cfsetospeed(&tty, speed)` and `cfsetispeed(&tty, speed)`. -/
def open_serial_port_speed (baud_rate : Int) (tty : termios) : termios :=
  let speed := get_baud_rate baud_rate
  let tty1 := { tty with c_ospeed := speed }
  { tty1 with c_ispeed := speed }

/-- The function `serial_read` over `read`: `bytes_read` is what `read`
returned and `errno` the error it left; `EAGAIN` and `EWOULDBLOCK` are the
constants of `errno.h`. -/
def serial_read (EAGAIN EWOULDBLOCK : Int) (bytes_read errno : Int) : Int :=
  if bytes_read < 0 then
    if errno = EAGAIN ∨ errno = EWOULDBLOCK then 0 else -1
  else to_int bytes_read

end Posix

namespace Windows

/-- The fields of the `DCB` that `configure_serial_windows` assigns. -/
structure DCB where
  BaudRate : Nat
  ByteSize : Nat
  StopBits : Nat
  Parity : Nat
  fBinary : Bool
  fParity : Bool
  fOutxCtsFlow : Bool
  fOutxDsrFlow : Bool
  fDtrControl : Nat
  fDsrSensitivity : Bool
  fTXContinueOnXoff : Bool
  fOutX : Bool
  fInX : Bool
  fErrorChar : Bool
  fNull : Bool
  fRtsControl : Nat
  fAbortOnError : Bool
deriving DecidableEq

/-- The `DCB` that `configure_serial_windows` hands to `SetCommState`, from the
one `GetCommState` filled in.  `BaudRate` is a `DWORD`, so the `int`
`handle->baud_rate` is converted modulo 2^32.  The constants `ONESTOPBIT`,
`NOPARITY`, `DTR_CONTROL_DISABLE` and `RTS_CONTROL_DISABLE` are all 0. -/
def configure_dcb (baud_rate : Int) (dcb : DCB) : DCB :=
  { dcb with
    BaudRate := (baud_rate % 2 ^ 32).toNat
    ByteSize := 8
    StopBits := 0
    Parity := 0
    fBinary := true
    fParity := false
    fOutxCtsFlow := false
    fOutxDsrFlow := false
    fDtrControl := 0
    fDsrSensitivity := false
    fTXContinueOnXoff := false
    fOutX := false
    fInX := false
    fErrorChar := false
    fNull := false
    fRtsControl := 0
    fAbortOnError := false }

/-- The function `configure_serial_windows`: its return value and the `DCB`
given to `SetCommState`, if that call is reached.  `got` is the `DCB` from
`GetCommState` (`none` when the call fails), `set_ok` and `timeouts_ok` are the
results of `SetCommState` and `SetCommTimeouts`. -/
def configure_serial_windows (baud_rate : Int) (got : Option DCB) (set_ok timeouts_ok : Bool) :
    Int × Option DCB :=
  match got with
  | none => (-1, none)
  | some dcb =>
    let dcb1 := configure_dcb baud_rate dcb
    if !set_ok then (-1, some dcb1)
    else if !timeouts_ok then (-1, some dcb1)
    else (0, some dcb1)

/-- The function `serial_read` over `ReadFile`: `ok` is the result of `ReadFile`,
`bytes_read` the `DWORD` it stored, `last_error` the value of `GetLastError()`. -/
def serial_read (ERROR_TIMEOUT : Nat) (ok : Bool) (bytes_read last_error : Nat) : Int :=
  if !ok then
    if last_error ≠ ERROR_TIMEOUT then -1 else 0
  else to_int (bytes_read : Int)

end Windows

/-- The baud rate `main` passes to `open_serial_port`: `atoi(argv[2])` when a
second argument is present, 9600 otherwise. -/
def main_baud_rate (argc : Int) (atoi_argv2 : Int) : Int :=
  if argc > 2 then atoi_argv2 else 9600

/-! ## One iteration of the poll loop of `interactive_mode` -/

/-- What the operator side yields in one iteration. -/
inductive OperatorInput
  /-- No input within the wait: `select` returned no ready descriptor (`_kbhit()` was 0). -/
  | not_ready
  /-- Input was signalled and `fgets` returned `NULL`. -/
  | end_of_input
  /-- Input was signalled and `fgets` stored these characters in `input_buffer`. -/
  | line (input_buffer : List Nat)
deriving DecidableEq

/-- What the environment answers during one iteration. -/
structure PollEnv where
  /-- The value `serial_read` returns. -/
  bytes_read : Int
  /-- The contents of `read_buffer` after the read. -/
  read_buffer : List Nat
  /-- The operator side. -/
  operator : OperatorInput
  /-- The value `serial_write` returns for the buffer it is given. -/
  serial_write : List Nat → Int
  /-- The contents of the uninitialised array `hex_data`. -/
  hex_data : Nat → Nat
  /-- The behaviour of the C library on the input item `0x`. -/
  accept0x : Bool

/-- How an iteration ends: the loop goes on, or it is left. -/
inductive Control
  | next
  | leave
deriving DecidableEq

/-- The effects of one iteration. -/
structure PollResult where
  /-- The text written to stdout. -/
  stdout : List Nat
  /-- The buffer passed to `serial_write`, if it was called. -/
  written : Option (List Nat)
  /-- Whether the loop goes on. -/
  ctl : Control
deriving DecidableEq

/-- The operator line after `strlen` and the removal of one trailing newline. -/
def strip_newline (input_buffer : List Nat) : List Nat :=
  let s := c_str input_buffer
  if s.length > 0 ∧ s.getLast? = some 10 then s.dropLast else s

/-- The body of `while (running)`: `none` only if the hex parse loop does not
finish within its fuel. -/
def interactive_mode_body (env : PollEnv) : Option PollResult :=
  let out0 := str "> " ++
    (if 0 < env.bytes_read then show_received env.bytes_read env.read_buffer else [])
  match env.operator with
  | .not_ready => some ⟨out0, none, .next⟩
  | .end_of_input => some ⟨out0, none, .leave⟩
  | .line input_buffer =>
    let line := strip_newline input_buffer
    if line.length = 0 then some ⟨out0, none, .next⟩
    else if line = str ":quit" then some ⟨out0, none, .leave⟩
    else if line.take 5 = str ":hex " then
      match hex_parse env.accept0x env.hex_data (line.drop 5) with
      | none => none
      | some data =>
        if data.length > 0 then
          let sent := env.serial_write data
          some ⟨out0 ++ (if 0 < sent then str "Sent " ++ fmt_d sent ++ str " bytes (hex)\n" else []),
            some data, .next⟩
        else some ⟨out0, none, .next⟩
    else
      let sent := env.serial_write line
      some ⟨out0 ++ (if 0 < sent then
          str "Sent " ++ fmt_d sent ++ str " bytes: " ++ [39] ++ line ++ [39, 10] else []),
        some line, .next⟩

/-- One turn of `while (running)`: the test of the flag, then the body. -/
def interactive_mode_step (running : Int) (env : PollEnv) : Option PollResult :=
  if running = 0 then some ⟨[], none, .leave⟩ else interactive_mode_body env

/-! ## Hex text, as the specification describes it -/

/-- The character of the hexadecimal digit of value `d`, in upper or lower case. -/
def hex_digit (upper : Bool) (d : Nat) : Nat :=
  if d < 10 then 48 + d else if upper then 55 + d else 87 + d

/-- One byte of a hex text: its value, the case of each of its two digits, and
the number of spaces written in front of the pair. -/
structure HexPair where
  byte : Nat
  upper_hi : Bool
  upper_lo : Bool
  gap : Nat
deriving DecidableEq

/-- The characters of one pair: the spaces in front, then the two digits. -/
def encode_pair (p : HexPair) : List Nat :=
  List.replicate p.gap 32 ++ [hex_digit p.upper_hi (p.byte / 16), hex_digit p.upper_lo (p.byte % 16)]

/-- The hex text of a sequence of bytes: every byte as two hexadecimal digits,
the pairs concatenated (gap 0) or separated by spaces (gap above 0). -/
def hex_text (ps : List HexPair) : List Nat :=
  (ps.map encode_pair).flatten

/-- The parser as the specification words it: the bytes of the leading run of
well-formed pairs of hexadecimal digits, the spaces between pairs skipped, and
nothing from the first malformed pair on. -/
def leading_pairs : List Nat → List Nat
  | [] => []
  | c :: t =>
    if c = 32 then leading_pairs t
    else
      match t with
      | [] => []
      | c1 :: t1 =>
        match hexval c, hexval c1 with
        | some d0, some d1 => (16 * d0 + d1) :: leading_pairs t1
        | _, _ => []

/-- The characters left where the leading run of well-formed pairs ends: the
string from the first malformed pair on. -/
def after_leading : List Nat → List Nat
  | [] => []
  | c :: t =>
    if c = 32 then after_leading t
    else
      match t with
      | [] => c :: t
      | c1 :: t1 =>
        match hexval c, hexval c1 with
        | some _, some _ => after_leading t1
        | _, _ => c :: t

/-- One byte of a hex dump: two upper-case hexadecimal digits and a space. -/
def hex_group (b : Nat) : List Nat :=
  [hex_digit true (b / 16), hex_digit true (b % 16), 32]

/-- One line of a hex dump: the groups of its bytes, then a newline. -/
def dump_line (chunk : List Nat) : List Nat :=
  chunk.flatMap hex_group ++ [10]

/-- The bytes of a buffer cut into runs of 16, the last one shorter when the
length is not a multiple of 16; `fuel` bounds the number of runs. -/
def chunks16 : Nat → List Nat → List (List Nat)
  | 0, _ => []
  | _ + 1, [] => []
  | fuel + 1, b :: rest => (b :: rest).take 16 :: chunks16 fuel ((b :: rest).drop 16)

/-! ## The bytes a hex string decodes to -/

/-- The bytes the parse loop stores when it is never stopped by the cap, read
off the characters that remain; `skip` says that the first remaining character
is the second one of the pair just handled, which `i += 2` steps over. -/
def hex_stream (accept0x : Bool) : Bool → List Nat → List Nat
  | _, [] => []
  | true, _ :: t => hex_stream accept0x false t
  | false, c :: t =>
    if c = 32 then hex_stream accept0x false t
    else
      match sscanf_2x accept0x (c :: t) with
      | some byte => (byte % 256) :: hex_stream accept0x true t
      | none => hex_stream accept0x true t

/-- The loop invariant: stores go to the consecutive indices `0 .. hex_len - 1`,
the count stays within the array, and each store has cost two index steps. -/
def HexInv (s : List Nat) (st : HexState) : Prop :=
  st.stores.map Prod.fst = List.range st.hex_len ∧ st.hex_len ≤ 512 ∧
    2 * st.hex_len ≤ st.i ∧ st.i ≤ s.length + 1

/-! ## The parse loop and the stream -/

theorem hex_stream_skip (a : Bool) (l : List Nat) :
    hex_stream a true l = hex_stream a false (l.drop 1) := by
  cases l <;> simp [hex_stream]

theorem hex_body_space (a : Bool) (s : List Nat) (st : HexState)
    (hL : s.length < 2 ^ 63) (hi : st.i < s.length) (hc : s.getD st.i 0 = 32) :
    hex_body a s st = { st with i := st.i + 1 } := by
  have h : ((st.i + SIZE_MOD - 1) % SIZE_MOD + 2) % SIZE_MOD = st.i + 1 := by
    simp only [SIZE_MOD]; omega
  simp only [hex_body, if_pos hc, h]

theorem hex_body_store (a : Bool) (s : List Nat) (st : HexState) (byte : Nat)
    (hL : s.length < 2 ^ 63) (hi : st.i < s.length) (hc : s.getD st.i 0 ≠ 32)
    (hs : sscanf_2x a (s.drop st.i) = some byte) :
    hex_body a s st =
      { i := st.i + 2, hex_len := st.hex_len + 1,
        stores := st.stores ++ [(st.hex_len, byte % 256)] } := by
  have h : (st.i + 2) % SIZE_MOD = st.i + 2 := by
    simp only [SIZE_MOD]; omega
  simp only [hex_body, if_neg hc, hs, h]

theorem hex_body_fail (a : Bool) (s : List Nat) (st : HexState)
    (hL : s.length < 2 ^ 63) (hi : st.i < s.length) (hc : s.getD st.i 0 ≠ 32)
    (hs : sscanf_2x a (s.drop st.i) = none) :
    hex_body a s st = { st with i := st.i + 2 } := by
  have h : (st.i + 2) % SIZE_MOD = st.i + 2 := by
    simp only [SIZE_MOD]; omega
  simp only [hex_body, if_neg hc, hs, h]

theorem hexInv_init (s : List Nat) : HexInv s ⟨0, 0, []⟩ := by
  simp [HexInv]

theorem hexInv_body (a : Bool) (s : List Nat) (st : HexState)
    (hL : s.length < 2 ^ 63) (hc : hex_cond s st = true) (hinv : HexInv s st) :
    HexInv s (hex_body a s st) ∧ st.i < (hex_body a s st).i := by
  simp only [hex_cond, Bool.and_eq_true, decide_eq_true_eq] at hc
  obtain ⟨hi, hlen⟩ := hc
  obtain ⟨h1, h2, h3, h4⟩ := hinv
  by_cases hsp : s.getD st.i 0 = 32
  · rw [hex_body_space a s st hL hi hsp]
    refine ⟨⟨h1, h2, ?_, ?_⟩, ?_⟩ <;> simp <;> omega
  · cases hs : sscanf_2x a (s.drop st.i) with
    | none =>
      rw [hex_body_fail a s st hL hi hsp hs]
      refine ⟨⟨h1, h2, ?_, ?_⟩, ?_⟩ <;> simp <;> omega
    | some byte =>
      rw [hex_body_store a s st byte hL hi hsp hs]
      refine ⟨⟨?_, ?_, ?_, ?_⟩, ?_⟩
      · simp [h1, List.range_succ]
      · simp; omega
      · simp; omega
      · simp; omega
      · simp

theorem hex_body_stream (a : Bool) (s : List Nat) (st : HexState)
    (hL : s.length < 2 ^ 63) (hc : hex_cond s st = true) :
    (hex_body a s st).stores.map Prod.snd ++ hex_stream a false (s.drop (hex_body a s st).i) =
      st.stores.map Prod.snd ++ hex_stream a false (s.drop st.i) := by
  simp only [hex_cond, Bool.and_eq_true, decide_eq_true_eq] at hc
  obtain ⟨hi, -⟩ := hc
  have hd : s.drop st.i = s[st.i] :: s.drop (st.i + 1) := List.drop_eq_getElem_cons hi
  have hg : s.getD st.i 0 = s[st.i] := by
    simp [List.getD_eq_getElem?_getD, List.getElem?_eq_getElem hi]
  have h2 : s.drop (st.i + 2) = (s.drop (st.i + 1)).drop 1 := by
    rw [List.drop_drop]
  by_cases hsp : s.getD st.i 0 = 32
  · rw [hex_body_space a s st hL hi hsp, hd]
    rw [hg] at hsp
    simp [hex_stream, hsp]
  · cases hs : sscanf_2x a (s.drop st.i) with
    | none =>
      rw [hex_body_fail a s st hL hi hsp hs]
      rw [hg] at hsp
      rw [hd] at hs
      simp only [hd]
      rw [hex_stream, if_neg hsp, hs]
      simp only [hex_stream_skip, h2]
    | some byte =>
      rw [hex_body_store a s st byte hL hi hsp hs]
      rw [hg] at hsp
      rw [hd] at hs
      simp only [hd]
      rw [hex_stream, if_neg hsp, hs]
      simp only [hex_stream_skip, h2, List.map_append, List.map_cons, List.map_nil,
        List.append_assoc, List.singleton_append]

/-- The loop reaches its exit within `strlen(hex_str) - i` iterations, keeps the
invariant, and stores the first bytes of the stream up to the cap. -/
theorem hex_loop_run (a : Bool) (s : List Nat) (hL : s.length < 2 ^ 63) :
    ∀ (f : Nat) (st : HexState), s.length ≤ st.i + f → HexInv s st →
      ∃ st1 n, hex_loop a s f st = some (st1, n) ∧ n ≤ s.length - st.i ∧ HexInv s st1 ∧
        st1.stores.map Prod.snd =
          (st.stores.map Prod.snd ++ hex_stream a false (s.drop st.i)).take 512 := by
  intro f
  induction f with
  | zero =>
    intro st hf hinv
    have hlen : st.stores.length = st.hex_len := by
      have := congrArg List.length hinv.1
      simpa using this
    have hc : hex_cond s st = false := by
      simp only [hex_cond, Bool.and_eq_false_iff, decide_eq_false_iff_not]
      left; omega
    refine ⟨st, 0, by simp [hex_loop, hc], Nat.zero_le _, hinv, ?_⟩
    have hd : s.drop st.i = [] := List.drop_eq_nil_of_le (by omega)
    rw [hd]
    simp only [hex_stream, List.append_nil]
    rw [List.take_of_length_le]
    simp only [List.length_map]
    have := hinv.2.1
    omega
  | succ f ih =>
    intro st hf hinv
    have hlen : st.stores.length = st.hex_len := by
      have := congrArg List.length hinv.1
      simpa using this
    by_cases hc : hex_cond s st = true
    · obtain ⟨hinv1, hlt⟩ := hexInv_body a s st hL hc hinv
      obtain ⟨st1, n, hrun, hn, hinv2, hbytes⟩ := ih (hex_body a s st) (by omega) hinv1
      have hi : st.i < s.length := by
        simp only [hex_cond, Bool.and_eq_true, decide_eq_true_eq] at hc
        exact hc.1
      refine ⟨st1, n + 1, by simp [hex_loop, hc, hrun], by omega, hinv2, ?_⟩
      rw [hbytes, hex_body_stream a s st hL hc]
    · have hc1 : hex_cond s st = false := by simpa using hc
      refine ⟨st, 0, by simp [hex_loop, hc1], Nat.zero_le _, hinv, ?_⟩
      simp only [hex_cond, Bool.and_eq_false_iff, decide_eq_false_iff_not] at hc1
      rcases hc1 with h | h
      · have hd : s.drop st.i = [] := List.drop_eq_nil_of_le (by omega)
        rw [hd]
        simp only [hex_stream, List.append_nil]
        rw [List.take_of_length_le]
        simp only [List.length_map]
        have := hinv.2.1
        omega
      · have h512 : (st.stores.map Prod.snd).length = 512 := by
          simp only [List.length_map]
          have := hinv.2.1
          omega
        rw [List.take_append_of_le_length (by omega), List.take_of_length_le (by omega)]

/-- Reading back the array: when the stores went to the indices
`0 .. hex_len - 1` in order, the first `hex_len` bytes of `hex_data` are the
stored bytes, whatever the array held before. -/
theorem hex_payload_eq (init : Nat → Nat) (stores : List (Nat × Nat)) :
    ∀ n, stores.map Prod.fst = List.range n →
      (List.range n).map (hex_data_after init stores) = stores.map Prod.snd := by
  induction stores using List.reverseRecOn with
  | nil =>
    intro n h
    have : n = 0 := by
      have := congrArg List.length h
      simpa using this.symm
    subst this
    simp
  | append_singleton l w ih =>
    intro n h
    have hn : n = l.length + 1 := by
      have := congrArg List.length h
      simpa using this.symm
    subst hn
    rw [List.range_succ, List.map_append] at h
    have hl := List.append_inj_left h (by simp)
    have hw := List.append_inj_right h (by simp)
    simp only [List.map_cons, List.map_nil, List.cons.injEq, and_true] at hw
    have ih1 := ih l.length hl
    rw [List.range_succ, List.map_append, List.map_append]
    congr 1
    · rw [← ih1]
      apply List.map_congr_left
      intro j hj
      simp only [hex_data_after, List.foldl_append, List.foldl_cons, List.foldl_nil]
      rw [Function.update_noteq]
      rw [List.mem_range] at hj
      omega
    · simp [hex_data_after, List.foldl_append, hw]

/-- The parser in closed form: on a string shorter than 2^63 it returns, and
the payload is the first 512 bytes of the stream. -/
theorem hex_parse_eq_stream (a : Bool) (init : Nat → Nat) (s : List Nat)
    (hL : s.length < 2 ^ 63) :
    hex_parse a init s = some ((hex_stream a false s).take 512) := by
  obtain ⟨st1, n, hrun, -, hinv, hbytes⟩ :=
    hex_loop_run a s hL s.length ⟨0, 0, []⟩ (by simp) (hexInv_init s)
  simp only [hex_parse, hrun, Option.map_some', hex_payload]
  rw [hex_payload_eq init st1.stores st1.hex_len hinv.1, hbytes]
  simp

/-! ## Pairs of hexadecimal digits -/

theorem hexval_some (c d : Nat) (h : hexval c = some d) :
    (48 ≤ c ∧ c ≤ 57 ∨ 65 ≤ c ∧ c ≤ 70 ∨ 97 ≤ c ∧ c ≤ 102) ∧ d < 16 := by
  unfold hexval at h
  split_ifs at h <;> simp at h <;> omega

theorem hexval_hex_digit (u : Bool) (d : Nat) (h : d < 16) : hexval (hex_digit u d) = some d := by
  interval_cases d <;> cases u <;> rfl

theorem sscanf_2x_pair (a : Bool) (c0 c1 d0 d1 : Nat) (rest : List Nat)
    (h0 : hexval c0 = some d0) (h1 : hexval c1 = some d1) :
    sscanf_2x a (c0 :: c1 :: rest) = some (16 * d0 + d1) := by
  have r0 := (hexval_some c0 d0 h0).1
  have r1 := (hexval_some c1 d1 h1).1
  have hsp : isspace c0 = false := by
    simp only [isspace, Bool.or_eq_false_iff, beq_eq_false_iff_ne, Bool.and_eq_false_iff,
      decide_eq_false_iff_not]
    omega
  have hsign : ¬ (c0 = 43 ∨ c0 = 45) := by omega
  have hx : ¬ (c0 = 48 ∧ (c1 = 120 ∨ c1 = 88)) := by omega
  simp only [sscanf_2x, List.dropWhile_cons, hsp, Bool.false_eq_true, if_false, if_neg hsign, h0,
    if_neg hx, h1]

theorem hex_stream_pair (a : Bool) (c0 c1 d0 d1 : Nat) (rest : List Nat)
    (h0 : hexval c0 = some d0) (h1 : hexval c1 = some d1) :
    hex_stream a false (c0 :: c1 :: rest) = (16 * d0 + d1) :: hex_stream a false rest := by
  have r0 := hexval_some c0 d0 h0
  have r1 := hexval_some c1 d1 h1
  have h32 : c0 ≠ 32 := by omega
  have hm : (16 * d0 + d1) % 256 = 16 * d0 + d1 := Nat.mod_eq_of_lt (by omega)
  rw [hex_stream, if_neg h32, sscanf_2x_pair a c0 c1 d0 d1 rest h0 h1]
  simp only [hm, hex_stream]

theorem hex_stream_spaces (a : Bool) (k : Nat) (rest : List Nat) :
    hex_stream a false (List.replicate k 32 ++ rest) = hex_stream a false rest := by
  induction k with
  | zero => simp
  | succ k ih => simp [List.replicate_succ, hex_stream, ih]

theorem hex_stream_encode_pair (a : Bool) (p : HexPair) (rest : List Nat) (hb : p.byte < 256) :
    hex_stream a false (encode_pair p ++ rest) = p.byte :: hex_stream a false rest := by
  have h0 := hexval_hex_digit p.upper_hi (p.byte / 16) (by omega)
  have h1 := hexval_hex_digit p.upper_lo (p.byte % 16) (by omega)
  simp only [encode_pair, List.append_assoc, hex_stream_spaces, List.cons_append, List.nil_append]
  rw [hex_stream_pair a _ _ _ _ rest h0 h1]
  congr 1
  omega

theorem hex_stream_hex_text (a : Bool) (ps : List HexPair) (hb : ∀ p ∈ ps, p.byte < 256) :
    hex_stream a false (hex_text ps) = ps.map HexPair.byte := by
  induction ps with
  | nil => simp [hex_text, hex_stream]
  | cons p ps ih =>
    have hp : p.byte < 256 := hb p (List.mem_cons_self _ _)
    have ih1 := ih (fun q hq => hb q (List.mem_cons_of_mem _ hq))
    simp only [hex_text, List.map_cons, List.flatten_cons] at ih1 ⊢
    rw [hex_stream_encode_pair a p _ hp, ih1]

theorem leading_pairs_space (t : List Nat) : leading_pairs (32 :: t) = leading_pairs t := by
  rw [leading_pairs.eq_def]; simp

theorem after_leading_space (t : List Nat) : after_leading (32 :: t) = after_leading t := by
  rw [after_leading.eq_def]; simp

theorem hex_stream_leading (a : Bool) (s : List Nat) :
    hex_stream a false s = leading_pairs s ++ hex_stream a false (after_leading s) := by
  induction s using leading_pairs.induct with
  | case1 => simp [leading_pairs, after_leading]
  | case2 t ih =>
    rw [leading_pairs_space, after_leading_space, ← ih]
    simp [hex_stream]
  | case3 c hc =>
    simp [leading_pairs, after_leading, hc]
  | case4 c hc c1 t1 d0 d1 h1 h0 ih =>
    rw [hex_stream_pair a c c1 d0 d1 t1 h0 h1, ih]
    simp [leading_pairs, after_leading, hc, h0, h1]
  | case5 c hc c1 t1 hno =>
    have hl : leading_pairs (c :: c1 :: t1) = [] := by
      rw [leading_pairs, if_neg hc]
      split
      · rename_i d0 d1 h0 h1
        exact (hno d0 d1 h0 h1).elim
      · rfl
    have ha : after_leading (c :: c1 :: t1) = c :: c1 :: t1 := by
      rw [after_leading, if_neg hc]
      split
      · rename_i d0 d1 h0 h1
        exact (hno d0 d1 h0 h1).elim
      · rfl
    rw [hl, ha, List.nil_append]

theorem after_leading_length (s : List Nat) : (after_leading s).length ≤ s.length := by
  induction s using after_leading.induct with
  | case1 => simp [after_leading]
  | case2 t ih =>
    rw [after_leading_space, List.length_cons]
    omega
  | case3 c hc => simp [after_leading, hc]
  | case4 c hc c1 t1 d0 d1 h1 h0 ih =>
    simp only [after_leading, if_neg hc, h0, h1, List.length_cons]
    omega
  | case5 c hc c1 t1 hno =>
    have ha : after_leading (c :: c1 :: t1) = c :: c1 :: t1 := by
      rw [after_leading, if_neg hc]
      split
      · rename_i d0 d1 h0 h1
        exact (hno d0 d1 h0 h1).elim
      · rfl
    rw [ha]

theorem after_leading_head (s : List Nat) (c : Nat) (t : List Nat)
    (h : after_leading s = c :: t) : c ≠ 32 := by
  induction s using after_leading.induct with
  | case1 => simp [after_leading] at h
  | case2 t0 ih =>
    rw [after_leading_space] at h
    exact ih h
  | case3 c0 hc =>
    simp only [after_leading, if_neg hc, List.cons.injEq] at h
    omega
  | case4 c0 hc c1 t1 d0 d1 h1 h0 ih =>
    simp only [after_leading, if_neg hc, h0, h1] at h
    exact ih h
  | case5 c0 hc c1 t1 hno =>
    have ha : after_leading (c0 :: c1 :: t1) = c0 :: c1 :: t1 := by
      rw [after_leading, if_neg hc]
      split
      · rename_i d0 d1 h0 h1
        exact (hno d0 d1 h0 h1).elim
      · rfl
    rw [ha] at h
    simp only [List.cons.injEq] at h
    omega

theorem strip_newline_length (input_buffer : List Nat) :
    (strip_newline input_buffer).length ≤ input_buffer.length := by
  have h1 : (c_str input_buffer).length ≤ input_buffer.length :=
    (List.takeWhile_sublist _).length_le
  unfold strip_newline
  simp only
  split_ifs
  · rw [List.length_dropLast]; omega
  · exact h1

/-! ## The hex parser: claims C1, C2 and C10 -/

/-- C1: decoding undoes hex encoding, up to the cap.  For every sequence of bytes,
each written as two hexadecimal digits of either case, the pairs concatenated or
separated by spaces, the parser returns exactly the first min(n, 512) bytes, in
order (the text being shorter than 2^63 characters, as any C string is). -/
theorem hex_parse_hex_text (a : Bool) (init : Nat → Nat) (ps : List HexPair)
    (hb : ∀ p ∈ ps, p.byte < 256) (hL : (hex_text ps).length < 2 ^ 63) :
    hex_parse a init (hex_text ps) = some ((ps.map HexPair.byte).take 512) := by
  rw [hex_parse_eq_stream a init _ hL, hex_stream_hex_text a ps hb]

/-- The two examples of C1: `48656C6C6F` and `48 65 6C`. -/
theorem hex_parse_hex_text_witness :
    hex_parse false (fun _ => 0) (str "48656C6C6F") = some [0x48, 0x65, 0x6C, 0x6C, 0x6F] ∧
      hex_parse false (fun _ => 0) (str "48 65 6C") = some [0x48, 0x65, 0x6C] :=
  ⟨hex_parse_hex_text false (fun _ => 0)
      [⟨0x48, true, true, 0⟩, ⟨0x65, true, true, 0⟩, ⟨0x6C, true, true, 0⟩,
        ⟨0x6C, true, true, 0⟩, ⟨0x6F, true, true, 0⟩] (by decide) (by decide),
    hex_parse_hex_text false (fun _ => 0)
      [⟨0x48, true, true, 0⟩, ⟨0x65, true, true, 1⟩, ⟨0x6C, true, true, 1⟩]
      (by decide) (by decide)⟩

/-- C2 as stated fails: in `zz41` the first pair is malformed, yet the later
pair `41` is decoded; in `414` the odd trailing nibble is stored as the byte 4.
The leading run of well-formed pairs is empty in the first and `41` in the
second. -/
theorem hex_parse_past_malformed_pair :
    hex_parse false (fun _ => 0) (str "zz41") = some [0x41] ∧
      hex_parse true (fun _ => 0) (str "zz41") = some [0x41] ∧
      leading_pairs (str "zz41") = [] ∧
      hex_parse false (fun _ => 0) (str "414") = some [0x41, 0x04] ∧
      hex_parse true (fun _ => 0) (str "414") = some [0x41, 0x04] ∧
      leading_pairs (str "414") = [0x41] := by
  decide

/-- C2, amended: the bytes of the leading run of well-formed pairs come first,
and parsing goes on from the first malformed pair: the output is the first 512
bytes of the leading run followed by what the parser makes of the rest of the
string.  There the loop looks at a character that is not a space; if `sscanf`
converts one or two characters the value is stored as a byte, if it converts
nothing no byte is stored, and either way parsing resumes two characters on. -/
theorem hex_parse_leading_pairs (a : Bool) (init : Nat → Nat) (s : List Nat)
    (hL : s.length < 2 ^ 63) :
    (∃ tail, hex_parse a init (after_leading s) = some tail ∧
      hex_parse a init s = some ((leading_pairs s ++ tail).take 512)) ∧
    (∀ c t, after_leading s = c :: t →
      c ≠ 32 ∧
      hex_parse a init (c :: t) =
        (hex_parse a init (t.drop 1)).map (fun r =>
          match sscanf_2x a (c :: t) with
          | some v => ((v % 256) :: r).take 512
          | none => r)) := by
  have hlen := after_leading_length s
  constructor
  · refine ⟨(hex_stream a false (after_leading s)).take 512,
      hex_parse_eq_stream a init _ (by omega), ?_⟩
    rw [hex_parse_eq_stream a init s hL, hex_stream_leading a s]
    congr 1
    rw [List.take_append_eq_append_take, List.take_append_eq_append_take, List.take_take]
    congr 2
    omega
  · intro c t hct
    have hc := after_leading_head s c t hct
    refine ⟨hc, ?_⟩
    rw [hct] at hlen
    simp only [List.length_cons] at hlen
    have hd : (t.drop 1).length < 2 ^ 63 := by
      rw [List.length_drop]; omega
    rw [hex_parse_eq_stream a init (c :: t) (by simp only [List.length_cons]; omega),
      hex_parse_eq_stream a init (t.drop 1) hd]
    simp only [Option.map_some', Option.some.injEq]
    rw [hex_stream, if_neg hc]
    cases hs : sscanf_2x a (c :: t) with
    | none => simp only [hex_stream_skip]
    | some v =>
      simp only [hex_stream_skip]
      simp [List.take_succ_cons, List.take_take]

/-- An instance of the amended C2: `zz41`, where the leading run is empty, the
pair `zz` converts nothing and the parser goes on with `41`. -/
theorem hex_parse_leading_pairs_witness :
    (∃ tail, hex_parse false (fun _ => 0) (after_leading (str "zz41")) = some tail ∧
      hex_parse false (fun _ => 0) (str "zz41") =
        some ((leading_pairs (str "zz41") ++ tail).take 512)) ∧
    hex_parse false (fun _ => 0) (122 :: str "z41") =
      (hex_parse false (fun _ => 0) ((str "z41").drop 1)).map (fun r =>
        match sscanf_2x false (122 :: str "z41") with
        | some v => ((v % 256) :: r).take 512
        | none => r) :=
  ⟨(hex_parse_leading_pairs false (fun _ => 0) (str "zz41") (by decide)).1,
    ((hex_parse_leading_pairs false (fun _ => 0) (str "zz41") (by decide)).2
      122 (str "z41") (by decide)).2⟩

/-- C10: the hex parse loop is total and bounded.  On a string of length
`L < 2^63` it reaches its exit within `L` iterations; every store into
`hex_data` is at an index below 512, the stores being as many as `hex_len`; the
final count is at most `min(512, ceil(L/2))`, hence at most 509 when `L ≤ 1018`,
which holds for the hex string of every line `fgets` can put into the 1024-byte
buffer; and a space at index 0, where `i--` wraps, leaves `i = 1` after
`i += 2`. -/
theorem hex_loop_total_bounded (a : Bool) (s : List Nat) (hL : s.length < 2 ^ 63) :
    (∃ st n, hex_loop a s s.length ⟨0, 0, []⟩ = some (st, n) ∧ n ≤ s.length ∧
      (∀ w ∈ st.stores, w.1 < 512) ∧ st.stores.length = st.hex_len ∧
      st.hex_len ≤ min 512 ((s.length + 1) / 2) ∧
      (s.length ≤ 1018 → st.hex_len ≤ 509)) ∧
    (s.head? = some 32 → hex_body a s ⟨0, 0, []⟩ = ⟨1, 0, []⟩) ∧
    (∀ input_buffer : List Nat, input_buffer.length ≤ 1023 →
      ((strip_newline input_buffer).drop 5).length ≤ 1018) := by
  refine ⟨?_, ?_, ?_⟩
  · obtain ⟨st, n, hrun, hn, hinv, -⟩ :=
      hex_loop_run a s hL s.length ⟨0, 0, []⟩ (by simp) (hexInv_init s)
    obtain ⟨h1, h2, h3, h4⟩ := hinv
    have hlen : st.stores.length = st.hex_len := by
      have := congrArg List.length h1
      simpa using this
    refine ⟨st, n, hrun, by simpa using hn, ?_, hlen, ?_, ?_⟩
    · intro w hw
      have hmem : w.1 ∈ st.stores.map Prod.fst := List.mem_map_of_mem _ hw
      rw [h1, List.mem_range] at hmem
      omega
    · rw [Nat.le_min]
      constructor
      · exact h2
      · omega
    · intro h
      omega
  · intro h
    cases s with
    | nil => simp at h
    | cons c t =>
      simp only [List.head?_cons, Option.some.injEq] at h
      subst h
      rw [hex_body_space a _ _ hL (by simp) (by simp)]
  · intro buf hbuf
    have := strip_newline_length buf
    rw [List.length_drop]
    omega

/-- An instance of C10: a string that starts with a space. -/
theorem hex_loop_total_bounded_witness :
    (∃ st n, hex_loop true (str " 41") (str " 41").length ⟨0, 0, []⟩ = some (st, n) ∧
      n ≤ (str " 41").length ∧
      (∀ w ∈ st.stores, w.1 < 512) ∧ st.stores.length = st.hex_len ∧
      st.hex_len ≤ min 512 (((str " 41").length + 1) / 2) ∧
      ((str " 41").length ≤ 1018 → st.hex_len ≤ 509)) ∧
    hex_body true (str " 41") ⟨0, 0, []⟩ = ⟨1, 0, []⟩ ∧
    ((strip_newline (str ":hex 41\n")).drop 5).length ≤ 1018 :=
  ⟨(hex_loop_total_bounded true (str " 41") (by decide)).1,
    (hex_loop_total_bounded true (str " 41") (by decide)).2.1 (by decide),
    (hex_loop_total_bounded true (str " 41") (by decide)).2.2 (str ":hex 41\n") (by decide)⟩

/-! ## Received data: claims C3 and C4 -/

theorem is_printable_iff (data : List Nat) :
    is_printable data = true ↔ ∀ b ∈ data, 32 ≤ b ∨ b = 10 ∨ b = 13 ∨ b = 9 := by
  induction data with
  | nil => simp [is_printable]
  | cons b rest ih =>
    by_cases hb : b < 32 ∧ b ≠ 10 ∧ b ≠ 13 ∧ b ≠ 9
    · simp only [is_printable, if_pos hb, Bool.false_eq_true, List.mem_cons, forall_eq_or_imp,
        false_iff, not_and]
      intro h
      omega
    · simp only [is_printable, if_neg hb, ih, List.mem_cons, forall_eq_or_imp, iff_and_self]
      intro _
      omega

theorem c_str_set (buf : List Nat) (n : Nat) (hn : n < buf.length)
    (hz : ∀ b ∈ buf.take n, b ≠ 0) : c_str (buf.set n 0) = buf.take n := by
  rw [List.set_eq_take_append_cons_drop, if_pos hn]
  unfold c_str
  rw [List.takeWhile_append_of_pos]
  · simp
  · intro b hb
    simpa using hz b hb

/-- C3: printable classification.  The received bytes are classified printable
exactly when every byte is at least 32 or is newline, carriage return or tab;
then they are shown as the quoted text of all the bytes, and otherwise (some
byte below 32 is none of the three) as a newline followed by `print_hex` of
the bytes.  In particular bytes that all lie in [32,126] or are newline,
carriage return or tab are printable. -/
theorem printable_classification (bytes_read : Int) (read_buffer : List Nat)
    (hlen : bytes_read.toNat < read_buffer.length) :
    (is_printable (read_buffer.take bytes_read.toNat) = true ↔
      ∀ b ∈ read_buffer.take bytes_read.toNat, 32 ≤ b ∨ b = 10 ∨ b = 13 ∨ b = 9) ∧
    ((∀ b ∈ read_buffer.take bytes_read.toNat, 32 ≤ b ∨ b = 10 ∨ b = 13 ∨ b = 9) →
      render_received bytes_read read_buffer =
        [39] ++ read_buffer.take bytes_read.toNat ++ [39, 10]) ∧
    ((∃ b ∈ read_buffer.take bytes_read.toNat, b < 32 ∧ b ≠ 10 ∧ b ≠ 13 ∧ b ≠ 9) →
      render_received bytes_read read_buffer =
        [10] ++ print_hex (read_buffer.take bytes_read.toNat)) ∧
    ((∀ b ∈ read_buffer.take bytes_read.toNat, (32 ≤ b ∧ b ≤ 126) ∨ b = 10 ∨ b = 13 ∨ b = 9) →
      is_printable (read_buffer.take bytes_read.toNat) = true) := by
  have htake : (read_buffer.set bytes_read.toNat 0).take bytes_read.toNat =
      read_buffer.take bytes_read.toNat := by
    rw [List.set_take, List.set_eq_of_length_le (List.length_take_le _ _)]
  refine ⟨is_printable_iff _, ?_, ?_, ?_⟩
  · intro h
    have hp := (is_printable_iff _).2 h
    have hz : ∀ b ∈ read_buffer.take bytes_read.toNat, b ≠ 0 := by
      intro b hb
      have := h b hb
      omega
    simp only [render_received, htake, hp, if_true, c_str_set read_buffer _ hlen hz]
  · intro h
    have hp : is_printable (read_buffer.take bytes_read.toNat) = false := by
      rw [← Bool.not_eq_true, is_printable_iff]
      intro hall
      obtain ⟨b, hb, hlow⟩ := h
      have := hall b hb
      omega
    simp only [render_received, htake, hp, Bool.false_eq_true, if_false]
  · intro h
    rw [is_printable_iff]
    intro b hb
    have := h b hb
    omega

/-- Instances of C3: the received bytes `Hi` followed by a newline are printable
and shown quoted; the bytes 1, 2, 3 are shown as a hex dump. -/
theorem printable_classification_witness :
    render_received 3 (str "Hi\n" ++ [7, 7]) = [39] ++ str "Hi\n" ++ [39, 10] ∧
      render_received 3 [1, 2, 3, 7] = [10] ++ print_hex [1, 2, 3] :=
  ⟨(printable_classification 3 (str "Hi\n" ++ [7, 7]) (by decide)).2.1 (by decide),
    (printable_classification 3 [1, 2, 3, 7] (by decide)).2.2.1 (by decide)⟩

theorem fmt_02X_byte (b : Nat) (hb : b < 256) :
    fmt_02X b = [hex_digit true (b / 16), hex_digit true (b % 16)] := by
  interval_cases b <;> rfl

theorem print_hex_from_append (x y : List Nat) :
    ∀ i, print_hex_from i (x ++ y) = print_hex_from i x ++ print_hex_from (i + x.length) y := by
  induction x with
  | nil => intro i; simp [print_hex_from]
  | cons b rest ih =>
    intro i
    have h : i + 1 + rest.length = i + (rest.length + 1) := by omega
    show print_hex_from i (b :: (rest ++ y)) = _
    rw [print_hex_from, print_hex_from, ih (i + 1), List.length_cons, h]
    simp only [List.append_assoc]

theorem print_hex_from_short (c : List Nat) (hb : ∀ b ∈ c, b < 256) :
    ∀ i, i % 16 + c.length < 16 → print_hex_from i c = c.flatMap hex_group := by
  induction c with
  | nil => intro i _; simp [print_hex_from]
  | cons b rest ih =>
    intro i hi
    simp only [List.length_cons] at hi
    have hnl : ¬ (i + 1) % 16 = 0 := by omega
    have hb0 : b < 256 := hb b (List.mem_cons_self _ _)
    rw [print_hex_from, if_neg hnl, ih (fun x hx => hb x (List.mem_cons_of_mem _ hx)) (i + 1)
      (by omega), fmt_02X_byte b hb0]
    simp [hex_group]

theorem print_hex_from_full (c : List Nat) (hb : ∀ b ∈ c, b < 256) :
    ∀ i, c ≠ [] → i % 16 + c.length = 16 → print_hex_from i c = dump_line c := by
  induction c with
  | nil => intro i h; exact absurd rfl h
  | cons b rest ih =>
    intro i _ hi
    simp only [List.length_cons] at hi
    have hb0 : b < 256 := hb b (List.mem_cons_self _ _)
    cases rest with
    | nil =>
      have hnl : (i + 1) % 16 = 0 := by
        simp only [List.length_nil] at hi
        omega
      rw [print_hex_from, if_pos hnl, fmt_02X_byte b hb0]
      simp [print_hex_from, dump_line, hex_group]
    | cons b1 rest1 =>
      have hnl : ¬ (i + 1) % 16 = 0 := by
        simp only [List.length_cons] at hi
        omega
      rw [print_hex_from, if_neg hnl,
        ih (fun x hx => hb x (List.mem_cons_of_mem _ hx)) (i + 1) (by simp) (by omega),
        fmt_02X_byte b hb0]
      simp [dump_line, hex_group]

theorem print_hex_chunks (fuel : Nat) :
    ∀ (data : List Nat) (i : Nat), data.length ≤ fuel → i % 16 = 0 → (∀ b ∈ data, b < 256) →
      print_hex_from i data ++ (if data.length % 16 ≠ 0 then [10] else []) =
        ((chunks16 fuel data).map dump_line).flatten := by
  induction fuel with
  | zero =>
    intro data i hlen _ _
    have : data = [] := List.length_eq_zero.mp (by omega)
    subst this
    simp [print_hex_from, chunks16]
  | succ fuel ih =>
    intro data i hlen hi hb
    cases data with
    | nil => simp [print_hex_from, chunks16]
    | cons b rest =>
      simp only [chunks16, List.map_cons, List.flatten_cons]
      by_cases h16 : 16 ≤ (b :: rest).length
      · have hsplit := List.take_append_drop 16 (b :: rest)
        have htl : ((b :: rest).take 16).length = 16 := by
          rw [List.length_take]; omega
        have hdl : ((b :: rest).drop 16).length = (b :: rest).length - 16 := List.length_drop _ _
        have hne : (b :: rest).take 16 ≠ [] := by
          intro h0
          rw [h0] at htl
          simp at htl
        have hbt : ∀ x ∈ (b :: rest).take 16, x < 256 :=
          fun x hx => hb x (List.mem_of_mem_take hx)
        have hbd : ∀ x ∈ (b :: rest).drop 16, x < 256 :=
          fun x hx => hb x (List.mem_of_mem_drop hx)
        have ih1 := ih ((b :: rest).drop 16) (i + 16) (by
          rw [hdl]; simp only [List.length_cons] at hlen ⊢; omega) (by omega) hbd
        rw [← ih1]
        have hmod : ((b :: rest).drop 16).length % 16 = (b :: rest).length % 16 := by
          rw [hdl]; omega
        rw [hmod]
        conv_lhs => rw [← hsplit]
        rw [print_hex_from_append, htl,
          print_hex_from_full _ hbt i hne (by rw [htl]; omega), List.append_assoc]
        rw [hsplit]
      · have hlt : (b :: rest).length < 16 := by omega
        have ht : (b :: rest).take 16 = b :: rest := List.take_of_length_le (by omega)
        have hd : (b :: rest).drop 16 = [] := List.drop_eq_nil_of_le (by omega)
        have hch : chunks16 fuel [] = [] := by
          cases fuel <;> rfl
        rw [ht, hd, hch]
        have hmod : (b :: rest).length % 16 ≠ 0 := by
          simp only [List.length_cons] at hlt ⊢
          omega
        rw [if_pos hmod, print_hex_from_short _ hb i (by omega)]
        simp [dump_line]

theorem chunks16_flatten (fuel : Nat) :
    ∀ data : List Nat, data.length ≤ fuel → (chunks16 fuel data).flatten = data := by
  induction fuel with
  | zero =>
    intro data hlen
    have : data = [] := List.length_eq_zero.mp (by omega)
    subst this
    simp [chunks16]
  | succ fuel ih =>
    intro data hlen
    cases data with
    | nil => simp [chunks16]
    | cons b rest =>
      simp only [chunks16, List.flatten_cons]
      rw [ih _ (by rw [List.length_drop]; simp only [List.length_cons] at hlen ⊢; omega)]
      exact List.take_append_drop 16 (b :: rest)

theorem chunks16_lengths (fuel : Nat) :
    ∀ data : List Nat, data.length ≤ fuel →
      (chunks16 fuel data).map List.length =
        List.replicate (data.length / 16) 16 ++
          (if data.length % 16 = 0 then [] else [data.length % 16]) := by
  induction fuel with
  | zero =>
    intro data hlen
    have : data = [] := List.length_eq_zero.mp (by omega)
    subst this
    simp [chunks16]
  | succ fuel ih =>
    intro data hlen
    cases data with
    | nil => simp [chunks16]
    | cons b rest =>
      simp only [chunks16, List.map_cons]
      rw [ih _ (by rw [List.length_drop]; simp only [List.length_cons] at hlen ⊢; omega)]
      rw [List.length_take, List.length_drop]
      by_cases h16 : 16 ≤ (b :: rest).length
      · have h1 : (b :: rest).length / 16 = ((b :: rest).length - 16) / 16 + 1 := by omega
        have h2 : ((b :: rest).length - 16) % 16 = (b :: rest).length % 16 := by omega
        rw [h1, h2, List.replicate_succ, min_eq_left h16]
        simp
      · have h1 : (b :: rest).length / 16 = 0 := by omega
        have h2 : ((b :: rest).length - 16) = 0 := by omega
        have h3 : (b :: rest).length % 16 = (b :: rest).length := by omega
        have h4 : ¬ (b :: rest).length = 0 := by simp
        rw [h1, h2, h3, min_eq_right (by omega)]
        simp [h4]

/-- C4: hex dump layout.  For a buffer of `n` bytes `print_hex` writes the bytes
in order, 16 to a line, each as two upper-case hexadecimal digits and a space,
every line ended by a newline: `ceil(n/16)` lines, all of 16 groups except a
last line of `n mod 16` groups when 16 does not divide `n`, and nothing at all
for `n = 0`. -/
theorem print_hex_layout (data : List Nat) (hb : ∀ b ∈ data, b < 256) :
    print_hex data = ((chunks16 data.length data).map dump_line).flatten ∧
    (chunks16 data.length data).flatten = data ∧
    (chunks16 data.length data).length = (data.length + 15) / 16 ∧
    (chunks16 data.length data).map List.length =
      List.replicate (data.length / 16) 16 ++
        (if data.length % 16 = 0 then [] else [data.length % 16]) ∧
    (data = [] → print_hex data = []) := by
  have hl := chunks16_lengths data.length data (Nat.le_refl _)
  refine ⟨?_, chunks16_flatten _ _ (Nat.le_refl _), ?_, hl, ?_⟩
  · exact print_hex_chunks data.length data 0 (Nat.le_refl _) rfl hb
  · have := congrArg List.length hl
    rw [List.length_map, List.length_append, List.length_replicate] at this
    rw [this]
    split_ifs with h
    · simp only [List.length_nil]; omega
    · simp only [List.length_singleton]; omega
  · intro h
    subst h
    rfl

/-- An instance of C4: 18 bytes give a line of 16 groups and a line of 2. -/
theorem print_hex_layout_witness :
    print_hex (List.range 18) =
      ((chunks16 (List.range 18).length (List.range 18)).map dump_line).flatten ∧
    (chunks16 (List.range 18).length (List.range 18)).map List.length = [16, 2] :=
  ⟨(print_hex_layout (List.range 18) (by decide)).1,
    (print_hex_layout (List.range 18) (by decide)).2.2.2.1⟩

/-! ## The transport: claims C5, C7 and C9 -/

/-- C5: baud lookup of the POSIX backend.  Each of the eight supported values
maps to its own rate constant, every other integer (0 and the negative ones
among them) maps to `B9600`, and `open_serial_port` sets both the output and the
input speed to the result. -/
theorem get_baud_rate_table (baud : Int) (tty : termios) :
    (Posix.get_baud_rate 9600 = speed_t.B9600 ∧ Posix.get_baud_rate 19200 = speed_t.B19200 ∧
      Posix.get_baud_rate 38400 = speed_t.B38400 ∧ Posix.get_baud_rate 57600 = speed_t.B57600 ∧
      Posix.get_baud_rate 115200 = speed_t.B115200 ∧
      Posix.get_baud_rate 230400 = speed_t.B230400 ∧
      Posix.get_baud_rate 460800 = speed_t.B460800 ∧
      Posix.get_baud_rate 921600 = speed_t.B921600) ∧
    (baud ∉ [9600, 19200, 38400, 57600, 115200, 230400, 460800, 921600] →
      Posix.get_baud_rate baud = speed_t.B9600) ∧
    (Posix.open_serial_port_speed baud tty).c_ospeed = Posix.get_baud_rate baud ∧
    (Posix.open_serial_port_speed baud tty).c_ispeed = Posix.get_baud_rate baud := by
  refine ⟨by decide, ?_, rfl, rfl⟩
  intro h
  simp only [List.mem_cons, List.mem_singleton, List.not_mem_nil, or_false, not_or] at h
  obtain ⟨h1, h2, h3, h4, h5, h6, h7, h8⟩ := h
  simp only [Posix.get_baud_rate, if_neg h1, if_neg h2, if_neg h3, if_neg h4, if_neg h5,
    if_neg h6, if_neg h7, if_neg h8]

/-- Instances of C5: the values 0 and -115200 are not in the table. -/
theorem get_baud_rate_table_witness :
    Posix.get_baud_rate 0 = speed_t.B9600 ∧ Posix.get_baud_rate (-115200) = speed_t.B9600 :=
  ⟨(get_baud_rate_table 0 ⟨speed_t.B38400, speed_t.B38400⟩).2.1 (by decide),
    (get_baud_rate_table (-115200) ⟨speed_t.B38400, speed_t.B38400⟩).2.1 (by decide)⟩

theorem to_int_of_range (v : Int) (h0 : 0 ≤ v) (h1 : v ≤ INT_MAX) : to_int v = v := by
  unfold INT_MAX at h1
  unfold to_int
  omega

/-- C7: a read never reports the lack of data as an error.  In both backends
`serial_read` returns 0 when the OS read gives 0 bytes or fails with the
would-block or timeout condition, returns the byte count when bytes were read
(a count that fits an `int`, as every count the program asks for does), and
returns -1 exactly when the OS read fails with another condition. -/
theorem serial_read_result (EAGAIN EWOULDBLOCK bytes_read errno : Int)
    (ERROR_TIMEOUT : Nat) (ok : Bool) (n last_error : Nat)
    (hr : bytes_read ≤ INT_MAX) (hn : (n : Int) ≤ INT_MAX) :
    (bytes_read = 0 → Posix.serial_read EAGAIN EWOULDBLOCK bytes_read errno = 0) ∧
    (bytes_read < 0 → (errno = EAGAIN ∨ errno = EWOULDBLOCK) →
      Posix.serial_read EAGAIN EWOULDBLOCK bytes_read errno = 0) ∧
    (0 < bytes_read → Posix.serial_read EAGAIN EWOULDBLOCK bytes_read errno = bytes_read) ∧
    (Posix.serial_read EAGAIN EWOULDBLOCK bytes_read errno = -1 ↔
      bytes_read < 0 ∧ errno ≠ EAGAIN ∧ errno ≠ EWOULDBLOCK) ∧
    (ok = true → n = 0 → Windows.serial_read ERROR_TIMEOUT ok n last_error = 0) ∧
    (ok = false → last_error = ERROR_TIMEOUT →
      Windows.serial_read ERROR_TIMEOUT ok n last_error = 0) ∧
    (ok = true → 0 < n → Windows.serial_read ERROR_TIMEOUT ok n last_error = n) ∧
    (Windows.serial_read ERROR_TIMEOUT ok n last_error = -1 ↔
      ok = false ∧ last_error ≠ ERROR_TIMEOUT) := by
  refine ⟨?_, ?_, ?_, ?_, ?_, ?_, ?_, ?_⟩
  · intro h
    subst h
    simp [Posix.serial_read, to_int]
  · intro h he
    simp [Posix.serial_read, h, he]
  · intro h
    have h1 : ¬ bytes_read < 0 := by omega
    simp only [Posix.serial_read, if_neg h1]
    exact to_int_of_range _ (by omega) hr
  · by_cases h : bytes_read < 0
    · by_cases he : errno = EAGAIN ∨ errno = EWOULDBLOCK
      · simp only [Posix.serial_read, if_pos h, if_pos he]
        constructor
        · intro h0
          omega
        · intro h0
          rcases he with he | he
          · exact absurd he h0.2.1
          · exact absurd he h0.2.2
      · simp only [Posix.serial_read, if_pos h, if_neg he, true_iff]
        exact ⟨h, fun h1 => he (Or.inl h1), fun h1 => he (Or.inr h1)⟩
    · simp only [Posix.serial_read, if_neg h, to_int_of_range _ (by omega) hr]
      constructor
      · intro h0
        omega
      · intro h0
        exact absurd h0.1 h
  · intro h0 h1
    subst h0 h1
    simp [Windows.serial_read, to_int]
  · intro h0 h1
    subst h0 h1
    simp [Windows.serial_read]
  · intro h0 _
    subst h0
    simp only [Windows.serial_read, Bool.not_true, Bool.false_eq_true, if_false]
    exact to_int_of_range _ (by omega) hn
  · cases ok with
    | true =>
      simp only [Windows.serial_read, Bool.not_true, Bool.false_eq_true, if_false,
        to_int_of_range _ (Int.natCast_nonneg n) hn]
      constructor
      · intro h
        have := Int.natCast_nonneg n
        omega
      · intro h
        exact absurd h.1 (by decide)
    | false =>
      by_cases he : last_error = ERROR_TIMEOUT
      · simp [Windows.serial_read, he]
      · simp [Windows.serial_read, he]

/-- Instances of C7, with 11 for `EAGAIN` and `EWOULDBLOCK`, 5 for another
error and 1460 for `ERROR_TIMEOUT`: a read that would block gives 0, a read of
3 bytes gives 3, a read that fails otherwise gives -1, and so for `ReadFile`. -/
theorem serial_read_result_witness :
    Posix.serial_read 11 11 (-1) 11 = 0 ∧
      Posix.serial_read 11 11 3 0 = 3 ∧
      (Posix.serial_read 11 11 (-1) 5 = -1 ↔ (-1 : Int) < 0 ∧ (5 : Int) ≠ 11 ∧ (5 : Int) ≠ 11) ∧
      Windows.serial_read 1460 false 0 1460 = 0 ∧
      Windows.serial_read 1460 true 3 0 = (3 : Nat) :=
  ⟨(serial_read_result 11 11 (-1) 11 1460 true 0 0 (by decide) (by decide)).2.1
      (by decide) (by decide),
    (serial_read_result 11 11 3 0 1460 true 0 0 (by decide) (by decide)).2.2.1 (by decide),
    (serial_read_result 11 11 (-1) 5 1460 true 0 0 (by decide) (by decide)).2.2.2.1,
    (serial_read_result 11 11 0 0 1460 false 0 1460 (by decide) (by decide)).2.2.2.2.2.1
      rfl rfl,
    (serial_read_result 11 11 0 0 1460 true 3 0 (by decide) (by decide)).2.2.2.2.2.2.1
      rfl (by decide)⟩

/-- C9 fails on the code: `configure_serial_windows` gives `SetCommState` the
requested baud rate as it is.  For 0 (what `main` passes when the argument is
not numeric) the `BaudRate` is 0, for the unsupported 12345 it is 12345, and
for -1 it is 4294967295; none is 9600.  The POSIX backend maps all three to
`B9600`. -/
theorem configure_serial_windows_baud (dcb : Windows.DCB) :
    main_baud_rate 3 0 = 0 ∧
    (Windows.configure_serial_windows 0 (some dcb) true true).2.map Windows.DCB.BaudRate =
      some 0 ∧
    (Windows.configure_serial_windows 12345 (some dcb) true true).2.map Windows.DCB.BaudRate =
      some 12345 ∧
    (Windows.configure_serial_windows (-1) (some dcb) true true).2.map Windows.DCB.BaudRate =
      some 4294967295 ∧
    Posix.get_baud_rate 0 = speed_t.B9600 ∧ Posix.get_baud_rate 12345 = speed_t.B9600 ∧
    Posix.get_baud_rate (-1) = speed_t.B9600 := by
  refine ⟨by decide, ?_, ?_, ?_, by decide, by decide, by decide⟩ <;>
    simp [Windows.configure_serial_windows, Windows.configure_dcb]

/-! ## The poll loop: claims C6 and C8 -/

/-- C6: session termination.  A turn of the poll loop ends the session exactly
when the shutdown flag is 0 at its start, or `fgets` reports the end of the
operator input, or the operator line without its trailing newline is
`:quit`; what `serial_read` and `serial_write` return plays no part, so
`:quit` ends the session whatever was read, and a failed read or write never
does.  (The line is shorter than 2^63 characters; `fgets` stores at most 1023.) -/
theorem session_termination (running : Int) (env : PollEnv)
    (hline : ∀ buf, env.operator = OperatorInput.line buf → buf.length < 2 ^ 63) :
    ∃ r, interactive_mode_step running env = some r ∧
      (r.ctl = Control.leave ↔
        running = 0 ∨ env.operator = OperatorInput.end_of_input ∨
          ∃ buf, env.operator = OperatorInput.line buf ∧ strip_newline buf = str ":quit") := by
  unfold interactive_mode_step
  by_cases hrun : running = 0
  · exact ⟨_, by rw [if_pos hrun], by simp [hrun]⟩
  · rw [if_neg hrun]
    unfold interactive_mode_body
    cases hop : env.operator with
    | not_ready => exact ⟨_, rfl, by simp [hrun]⟩
    | end_of_input => exact ⟨_, rfl, by simp⟩
    | line buf =>
      simp only
      by_cases h0 : (strip_newline buf).length = 0
      · refine ⟨_, by rw [if_pos h0], ?_⟩
        have hq : strip_newline buf ≠ str ":quit" := by
          intro h
          rw [h] at h0
          exact absurd h0 (by decide)
        simp [hrun, hq]
      · rw [if_neg h0]
        by_cases hq : strip_newline buf = str ":quit"
        · exact ⟨_, by rw [if_pos hq], by simp [hq]⟩
        · rw [if_neg hq]
          by_cases hh : (strip_newline buf).take 5 = str ":hex "
          · rw [if_pos hh]
            have hlen : ((strip_newline buf).drop 5).length < 2 ^ 63 := by
              have h1 := strip_newline_length buf
              have h2 := hline buf hop
              rw [List.length_drop]
              omega
            rw [hex_parse_eq_stream env.accept0x env.hex_data _ hlen]
            simp only
            split_ifs <;> exact ⟨_, rfl, by simp [hrun, hq]⟩
          · rw [if_neg hh]
            exact ⟨_, rfl, by simp [hrun, hq]⟩

/-- An instance of C6: `:quit` ends the session in a turn whose read failed. -/
theorem session_termination_witness :
    (interactive_mode_step 1 ⟨-1, List.replicate 4 0, OperatorInput.line (str ":quit\n"),
      fun _ => -1, fun _ => 0, false⟩).map PollResult.ctl = some Control.leave := by
  obtain ⟨r, hr, hiff⟩ := session_termination 1
    ⟨-1, List.replicate 4 0, OperatorInput.line (str ":quit\n"), fun _ => -1, fun _ => 0, false⟩
    (by
      intro buf h
      cases h
      decide)
  rw [hr]
  exact congrArg some (hiff.2 (Or.inr (Or.inr ⟨_, rfl, by decide⟩)))

/-- C8: text lines are transmitted verbatim.  For an operator line whose content
without the trailing newline is not empty, is not `:quit` and does not begin
with `:hex `, the poll loop gives `serial_write` exactly that content and goes
on; when `serial_write` returns the length of the content, the loop prints
`Sent <n> bytes: '<line>'` and a newline, `n` being that length, after the
prompt and the display of received data. -/
theorem text_line_verbatim (running : Int) (env : PollEnv) (input_buffer : List Nat)
    (hrun : running ≠ 0) (hop : env.operator = OperatorInput.line input_buffer)
    (hne : strip_newline input_buffer ≠ [])
    (hq : strip_newline input_buffer ≠ str ":quit")
    (hh : (strip_newline input_buffer).take 5 ≠ str ":hex ") :
    ∃ r, interactive_mode_step running env = some r ∧
      r.written = some (strip_newline input_buffer) ∧ r.ctl = Control.next ∧
      (env.serial_write (strip_newline input_buffer) = (strip_newline input_buffer).length →
        r.stdout =
          str "> " ++
            (if 0 < env.bytes_read then show_received env.bytes_read env.read_buffer else []) ++
            (str "Sent " ++ fmt_d (strip_newline input_buffer).length ++ str " bytes: " ++ [39] ++
              strip_newline input_buffer ++ [39, 10])) := by
  have h0 : ¬ (strip_newline input_buffer).length = 0 := by
    intro h
    exact hne (List.length_eq_zero.mp h)
  unfold interactive_mode_step
  rw [if_neg hrun]
  unfold interactive_mode_body
  rw [hop]
  simp only
  rw [if_neg h0, if_neg hq, if_neg hh]
  refine ⟨_, rfl, rfl, rfl, ?_⟩
  intro hs
  have hpos : (0 : Int) < ((strip_newline input_buffer).length : Int) := by
    have : 0 < (strip_newline input_buffer).length := Nat.pos_of_ne_zero h0
    exact_mod_cast this
  simp only [hs, hpos, if_true]

/-- The example of C8: the line `hello` is written as it is and reported as
`Sent 5 bytes: 'hello'`. -/
theorem text_line_verbatim_witness :
    (interactive_mode_step 1 ⟨0, List.replicate 4 0, OperatorInput.line (str "hello\n"),
      fun b => b.length, fun _ => 0, false⟩).map (fun r => (r.written, r.stdout)) =
      some (some (str "hello"), str "> Sent 5 bytes: " ++ [39] ++ str "hello" ++ [39, 10]) := by
  obtain ⟨r, hr, hw, -, hout⟩ := text_line_verbatim 1
    ⟨0, List.replicate 4 0, OperatorInput.line (str "hello\n"), fun b => b.length, fun _ => 0,
      false⟩ (str "hello\n") (by decide) rfl (by decide) (by decide) (by decide)
  rw [hr]
  simp only [Option.map_some', hw, hout rfl]
  decide

end SerialTool
